import Mathlib

/-!
# Verification of the resilient request layer (connecto-expo)

Shallow embedding of the core of `src/lib/token-manager.ts` and
`src/lib/error-handler.ts`: the error classifier, the credential store's
expiry bookkeeping, the single-flight token refresh, the request
deduplicator with its periodic sweep, the bounded-retry helper and the
reversible token transform.  Times are modelled as natural-number
milliseconds (`Date.now()`), JavaScript strings as Lean `String`s, and
byte strings as `List Nat` where byte-level fidelity matters.
-/

namespace Connecto

/-! ## Error classifier (`src/lib/error-handler.ts`) -/

/-- The `ErrorType` enum of `error-handler.ts`. -/
inductive ErrorType where
  | NETWORK_ERROR
  | AUTHENTICATION_ERROR
  | AUTHORIZATION_ERROR
  | VALIDATION_ERROR
  | NOT_FOUND_ERROR
  | CONFLICT_ERROR
  | SERVER_ERROR
  | UNKNOWN_ERROR
deriving DecidableEq, Repr

/-- `ERROR_MESSAGES.NETWORK_ERROR` from `lib/constants`. -/
def NETWORK_ERROR_MESSAGE : String := "네트워크 연결을 확인해 주세요."

/-- A JavaScript `Error` as far as this layer observes it: its
`message` and its `cause` (which this code base never populates). -/
structure JsError where
  message : String
  cause : Option String
deriving DecidableEq, Repr

/-- The `StructuredError` record produced by `ErrorClassifier.classify`
(the `originalError`/`details` fields carry no logic and are omitted;
`status` is `some s` when the input carried a numeric
`response.status`, `none` otherwise — matching the `undefined` the
source stores when the response has no status). -/
structure StructuredError where
  type : ErrorType
  status : Option Nat
  message : String
deriving DecidableEq, Repr

/-- The possible shapes of the `unknown` value passed to `classify`,
following the source's tests in order (error-handler.ts:50-84):
an object passing the `"response" in error` check whose `response`
carries a numeric `status` (`httpShaped`), such an object whose
`response` is `null` or `undefined` — on which reading
`response.status` at error-handler.ts:52 throws a `TypeError`
(`httpShapedNullResponse`), such an object whose non-null `response`
lacks a numeric `status`, so `status` reads back `undefined`
(`httpShapedNoStatus`), an `Error` instance with `name` and `message`
(`errorInstance`), a plain string (`stringValue`; `null`, `undefined`
and other falsy values fail the first check's `error &&` guard and
fall through here only when they are strings), and any other value
(`otherValue`). -/
inductive RawError where
  | httpShaped (status : Nat) (message : String)
  | httpShapedNullResponse
  | httpShapedNoStatus (message : String)
  | errorInstance (name : String) (message : String)
  | stringValue (s : String)
  | otherValue
deriving DecidableEq, Repr

/-- The `TypeError` thrown by `httpError.response.status`
(error-handler.ts:52) when `response` is `null` (for `undefined` only
the wording differs). -/
def nullResponseTypeError : JsError :=
  { message := "Cannot read properties of null (reading 'status')"
    cause := none }

/-- `ErrorClassifier.getErrorTypeByStatus` (error-handler.ts:87-110):
the `switch` over `HTTP_STATUS` constants with range fallbacks. -/
def getErrorTypeByStatus (status : Nat) : ErrorType :=
  if status = 401 then ErrorType.AUTHENTICATION_ERROR
  else if status = 403 then ErrorType.AUTHORIZATION_ERROR
  else if status = 404 then ErrorType.NOT_FOUND_ERROR
  else if status = 409 then ErrorType.CONFLICT_ERROR
  else if status = 422 then ErrorType.VALIDATION_ERROR
  else if status = 500 then ErrorType.SERVER_ERROR
  else if 400 ≤ status ∧ status < 500 then ErrorType.VALIDATION_ERROR
  else if 500 ≤ status then ErrorType.SERVER_ERROR
  else ErrorType.UNKNOWN_ERROR

/-- Whether `pat` is an initial segment of `l`. -/
def listStartsWith : List Char → List Char → Bool
  | _, [] => true
  | [], _ :: _ => false
  | a :: as, b :: bs => a = b && listStartsWith as bs

/-- Whether `pat` occurs contiguously somewhere in `l`. -/
def listContainsSub : List Char → List Char → Bool
  | l, pat =>
    if listStartsWith l pat then true
    else
      match l with
      | [] => false
      | _ :: t => listContainsSub t pat

/-- JavaScript `message.includes("fetch")`. -/
def messageMentionsFetch (message : String) : Bool :=
  listContainsSub message.toList "fetch".toList

/-- `ErrorClassifier.classify` (error-handler.ts:48-85).  An object
with a `response` field is dispatched on `response.status` — which
throws a `TypeError` (modelled as `Except.error`) when `response` is
`null`/`undefined`, and yields `undefined` hence `UNKNOWN_ERROR` with
no recorded status when the response lacks a numeric status; a
`TypeError` mentioning `fetch` becomes a network error; any other
`Error` becomes `UNKNOWN_ERROR` with
`error.message || ERROR_MESSAGES.NETWORK_ERROR`; a string keeps itself
as the message; anything else degrades to the generic message. -/
def classify (error : RawError) : Except JsError StructuredError :=
  match error with
  | RawError.httpShaped status message =>
      Except.ok
        { type := getErrorTypeByStatus status
          status := some status
          message := message }
  | RawError.httpShapedNullResponse =>
      Except.error nullResponseTypeError
  | RawError.httpShapedNoStatus message =>
      Except.ok
        { type := ErrorType.UNKNOWN_ERROR
          status := none
          message := message }
  | RawError.errorInstance name message =>
      Except.ok
        (if name = "TypeError" ∧ messageMentionsFetch message then
          { type := ErrorType.NETWORK_ERROR
            status := none
            message := NETWORK_ERROR_MESSAGE }
        else
          { type := ErrorType.UNKNOWN_ERROR
            status := none
            message := if message = "" then NETWORK_ERROR_MESSAGE else message })
  | RawError.stringValue s =>
      Except.ok { type := ErrorType.UNKNOWN_ERROR, status := none, message := s }
  | RawError.otherValue =>
      Except.ok
        { type := ErrorType.UNKNOWN_ERROR, status := none
          message := NETWORK_ERROR_MESSAGE }

/-- The spec's decision table for the failure classifier, written from
the table in §4.3 of the spec, for comparison with
`getErrorTypeByStatus`. -/
def specStatusTable (status : Nat) : ErrorType :=
  if status = 401 then ErrorType.AUTHENTICATION_ERROR
  else if status = 403 then ErrorType.AUTHORIZATION_ERROR
  else if status = 404 then ErrorType.NOT_FOUND_ERROR
  else if status = 409 then ErrorType.CONFLICT_ERROR
  else if status = 422 then ErrorType.VALIDATION_ERROR
  else if status = 500 then ErrorType.SERVER_ERROR
  else if 400 ≤ status ∧ status ≤ 499 then ErrorType.VALIDATION_ERROR
  else if 500 ≤ status then ErrorType.SERVER_ERROR
  else ErrorType.UNKNOWN_ERROR

/-! ## Credential store expiry bookkeeping (`token-manager.ts`) -/

/-- `55 * 60 * 1000` ms: the conservative lifetime window written by
`setTokens` (token-manager.ts:121). -/
def TOKEN_LIFETIME_MS : Nat := 55 * 60 * 1000

/-- `5 * 60 * 1000` ms: the expiring-soon window of
`isTokenExpiringSoon` (token-manager.ts:174). -/
def EXPIRING_SOON_WINDOW_MS : Nat := 5 * 60 * 1000

/-- The in-memory/stored credential state of `TokenManager`: the two
credentials and the recorded expiry instant (absent when never set or
cleared). -/
structure TokenState where
  accessToken : Option String
  refreshToken : Option String
  tokenExpiry : Option Nat
deriving DecidableEq, Repr

/-- `TokenManager.setTokens` (token-manager.ts:108-123): replaces the
access credential, replaces the refresh credential only when one is
supplied, and records expiry `Date.now() + 55 * 60 * 1000`. -/
def setTokens (st : TokenState) (access : String) (refresh : Option String)
    (now : Nat) : TokenState :=
  { accessToken := some access
    refreshToken := match refresh with
      | some r => some r
      | none => st.refreshToken
    tokenExpiry := some (now + TOKEN_LIFETIME_MS) }

/-- `TokenManager.clearTokens` (token-manager.ts:147-155). -/
def clearTokens (_st : TokenState) : TokenState :=
  { accessToken := none, refreshToken := none, tokenExpiry := none }

/-- `TokenManager.isTokenExpired` (token-manager.ts:158-165): true when
no expiry is recorded or `Date.now() >= expiry`. -/
def isTokenExpired (st : TokenState) (now : Nat) : Bool :=
  match st.tokenExpiry with
  | none => true
  | some expiry => decide (expiry ≤ now)

/-- `TokenManager.isTokenExpiringSoon` (token-manager.ts:168-176): true
when no expiry is recorded or `Date.now() + 5 min >= expiry`. -/
def isTokenExpiringSoon (st : TokenState) (now : Nat) : Bool :=
  match st.tokenExpiry with
  | none => true
  | some expiry => decide (expiry ≤ now + EXPIRING_SOON_WINDOW_MS)

/-! ## Bounded retry (`retryableRequest`, token-manager.ts:574-616)

The loop `for (attempt = 0; attempt <= maxRetries; attempt++)` tries the
request, rethrows on the last attempt or when the retry condition
rejects the error, and otherwise sleeps `retryDelay * 2 ^ attempt`
before the next attempt.  The per-attempt outcome of the underlying
request is modelled as a function from the attempt index to
`Except String T` (each attempt uses a fresh deduplication key
`key_attempt_N`, so attempts are independent).  The model returns the
final result, the number of attempts made, and the list of back-off
delays awaited. -/

/-- One execution of the retry loop from attempt index `attempt` with
`fuel` iterations remaining (`fuel = maxRetries + 1 - attempt` at the
top-level call; the `fuel = 0` branch models the `throw lastError`
after the loop, which is unreachable because the
`attempt === maxRetries` iteration always returns or throws). -/
def retryGo {T : Type} (outcomes : Nat → Except String T)
    (retryCondition : String → Bool) (retryDelay maxRetries : Nat) :
    Nat → Nat → Option String → Except String T × Nat × List Nat
  | 0, _, lastError => (Except.error (lastError.getD ""), 0, [])
  | fuel + 1, attempt, _ =>
    match outcomes attempt with
    | Except.ok v => (Except.ok v, 1, [])
    | Except.error e =>
      if attempt = maxRetries ∨ retryCondition e = false then
        (Except.error e, 1, [])
      else
        let rest := retryGo outcomes retryCondition retryDelay maxRetries
          fuel (attempt + 1) (some e)
        (rest.1, rest.2.1 + 1, retryDelay * 2 ^ attempt :: rest.2.2)

/-- `retryableRequest` (token-manager.ts:574-616): run the loop from
attempt 0; the loop body executes at most `maxRetries + 1` times. -/
def retryableRequest {T : Type} (outcomes : Nat → Except String T)
    (retryCondition : String → Bool) (retryDelay maxRetries : Nat) :
    Except String T × Nat × List Nat :=
  retryGo outcomes retryCondition retryDelay maxRetries (maxRetries + 1) 0 none

/-- Default `maxRetries = 3` of `retryableRequest`
(token-manager.ts:584). -/
def maxRetriesDefault : Nat := 3

/-- Default `retryDelay = 1000` ms of `retryableRequest`
(token-manager.ts:585). -/
def retryDelayDefault : Nat := 1000

/-- Default `retryCondition = () => true` of `retryableRequest`
(token-manager.ts:586). -/
def retryConditionDefault : String → Bool := fun _ => true

/-! ## Deduplicator sweep (`RequestDeduplicator`, token-manager.ts:333-420) -/

/-- `PENDING_TIMEOUT = 30000` ms (token-manager.ts:333). -/
def PENDING_TIMEOUT : Nat := 30000

/-- `CLEANUP_INTERVAL = 60000` ms (token-manager.ts:334). -/
def CLEANUP_INTERVAL : Nat := 60000

/-- One record of the `pendingRequests` map: the fingerprint key and
the registration time (`timestamp: Date.now()`); the promise and abort
controller carry no data relevant to the sweep, and an invoked
cancellation handle is reported by key in the sweep's result. -/
structure PendingEntry where
  key : String
  timestamp : Nat
deriving DecidableEq, Repr

/-- The sweep's age test `now - request.timestamp > PENDING_TIMEOUT`
(token-manager.ts:407).  `Nat` truncated subtraction agrees with the
JavaScript comparison also when `timestamp > now`: both sides then
refuse to classify the entry as expired. -/
def isExpiredEntry (now : Nat) (e : PendingEntry) : Bool :=
  decide (PENDING_TIMEOUT < now - e.timestamp)

/-- `RequestDeduplicator.cleanupExpiredRequests`
(token-manager.ts:402-420): collect the keys of entries older than
`PENDING_TIMEOUT`, invoking `controller.abort()` on each (returned as
the second component), then delete exactly those keys from the map. -/
def cleanupExpiredRequests (now : Nat) (reqs : List PendingEntry) :
    List PendingEntry × List String :=
  let expiredKeys := (reqs.filter (isExpiredEntry now)).map (fun e => e.key)
  (reqs.filter (fun e => !(decide (e.key ∈ expiredKeys))), expiredKeys)

/-! ## Single-flight token refresh (`TokenManager.refreshAccessToken`,
token-manager.ts:179-203)

The scheduling model is the single-threaded cooperative one of §5 of
the spec: an `async` function body runs synchronously up to its first
`await`, so the whole prefix of `refreshAccessToken` — the
`isRefreshing && refreshPromise` check, the refresh-credential check,
and the flag/promise assignment together with the start of the network
call inside `performTokenRefresh` — is one atomic step per caller.
Settlement of the shared promise is a second kind of step: it delivers
one outcome to every caller awaiting that promise and runs the
creator's continuation, which resets the single-flight slot (and on
failure clears the credentials). -/

/-- The settled outcome of a shared promise. -/
inductive Outcome where
  | success
  | failure
deriving DecidableEq, Repr

/-- The control state of one caller of `refreshAccessToken`. -/
inductive RefreshTask where
  | start
  | awaiting (ticket : Nat)
  | done (o : Outcome)
  | doneNoRefresh
deriving DecidableEq, Repr

/-- The shared state of `TokenManager` plus the cohort of callers:
`isRefreshing`/`refreshPromise` are the fields of those names (the
promise is identified by a ticket number), `netCalls` counts the
network renewal calls issued by `performTokenRefresh`, and
`nextTicket` numbers freshly created promises. -/
structure RefreshSys where
  isRefreshing : Bool
  refreshPromise : Option Nat
  hasAccessToken : Bool
  hasRefreshToken : Bool
  netCalls : Nat
  nextTicket : Nat
  tasks : List RefreshTask
deriving DecidableEq, Repr

/-- `n` concurrent callers about to enter `refreshAccessToken`, with a
refresh credential present and no renewal in flight. -/
def initRefresh (n : Nat) : RefreshSys :=
  { isRefreshing := false
    refreshPromise := none
    hasAccessToken := true
    hasRefreshToken := true
    netCalls := 0
    nextTicket := 0
    tasks := List.replicate n RefreshTask.start }

/-- The atomic synchronous prefix of `refreshAccessToken`
(token-manager.ts:179-191) executed by caller `i`: join the existing
promise when `isRefreshing && refreshPromise`; otherwise throw when no
refresh credential is available; otherwise set the flag, create the
promise and issue the network call.  A caller not in its start state
(or an out-of-range index) leaves the state unchanged. -/
def runRefreshTask (s : RefreshSys) (i : Nat) : RefreshSys :=
  match s.tasks[i]? with
  | some RefreshTask.start =>
    match s.isRefreshing, s.refreshPromise with
    | true, some t => { s with tasks := s.tasks.set i (RefreshTask.awaiting t) }
    | _, _ =>
      if s.hasRefreshToken then
        { s with isRefreshing := true
                 refreshPromise := some s.nextTicket
                 netCalls := s.netCalls + 1
                 nextTicket := s.nextTicket + 1
                 tasks := s.tasks.set i (RefreshTask.awaiting s.nextTicket) }
      else
        { s with tasks := s.tasks.set i RefreshTask.doneNoRefresh }
  | _ => s

/-- Settlement of the in-flight promise with outcome `o`: every caller
awaiting it observes `o`; the creator's continuation
(token-manager.ts:192-202) resets `isRefreshing`/`refreshPromise` and,
in the catch branch, calls `clearTokens`; on success
`performTokenRefresh` has already stored the new credential pair via
`setTokens`.  No-op when no promise is in flight. -/
def settleRefresh (s : RefreshSys) (o : Outcome) : RefreshSys :=
  match s.refreshPromise with
  | none => s
  | some t =>
    { s with
      isRefreshing := false
      refreshPromise := none
      hasAccessToken := (match o with | Outcome.success => true | Outcome.failure => false)
      hasRefreshToken := (match o with | Outcome.success => true | Outcome.failure => false)
      tasks := s.tasks.map (fun task =>
        match task with
        | RefreshTask.awaiting u =>
            if u = t then RefreshTask.done o else RefreshTask.awaiting u
        | other => other) }

/-- An interleaving of caller entries: run the atomic prefixes in the
order given by `l`. -/
def runRefreshSeq (s : RefreshSys) (l : List Nat) : RefreshSys :=
  l.foldl runRefreshTask s

/-! ### Rejection values of the refresh path (for C5) -/

/-- `throw new Error("No refresh token available")`
(token-manager.ts:186). -/
def noRefreshTokenError : JsError :=
  { message := "No refresh token available", cause := none }

/-- `throw new Error("Token refresh failed")` (token-manager.ts:235):
a fresh error with a fixed message; the caught underlying error is
passed to `console.error` only, not attached to the new error. -/
def renewalFailedError : JsError :=
  { message := "Token refresh failed", cause := none }

/-- The body of the refresh endpoint's response as used by
`performTokenRefresh`. -/
structure AuthResponse where
  accessToken : String
  refreshToken : String
deriving DecidableEq, Repr

/-- `TokenManager.performTokenRefresh` (token-manager.ts:205-237) as a
function of the network call's result: on success it returns the new
access token (after storing the pair); any failure is caught and
re-thrown as `renewalFailedError`. -/
def performTokenRefresh (netResult : Except JsError AuthResponse) :
    Except JsError String :=
  match netResult with
  | Except.ok r => Except.ok r.accessToken
  | Except.error _ => Except.error renewalFailedError

/-- The outcome of one non-joining `refreshAccessToken` call
(token-manager.ts:184-203): reject with `noRefreshTokenError` when no
refresh credential is available, otherwise the `performTokenRefresh`
result. -/
def refreshAttemptResult (hasRefreshTok : Bool)
    (netResult : Except JsError AuthResponse) : Except JsError String :=
  if hasRefreshTok = false then Except.error noRefreshTokenError
  else performTokenRefresh netResult

/-! ## Request deduplication (`RequestDeduplicator.deduplicate`,
token-manager.ts:346-372)

Same cooperative model, for a fixed fingerprint `fp`: the synchronous
prefix of `deduplicate` — the `pendingRequests.get(key)` check, the
invocation of `requestFn` and the `pendingRequests.set(key, ...)` —
is one atomic step; the `.finally` handler deletes the entry when the
promise settles, before any caller observes the result. -/

/-- The control state of one caller of `deduplicate` for the fixed
fingerprint. -/
inductive DedupTask where
  | start
  | awaiting (entryId : Nat)
  | done (o : Outcome)
deriving DecidableEq, Repr

/-- The registry state restricted to one fingerprint: the live
In-Flight Entry (by id) if any, the number of invocations of the
underlying operation, and the caller cohort. -/
structure DedupSys where
  entry : Option Nat
  execCount : Nat
  nextId : Nat
  tasks : List DedupTask
deriving DecidableEq, Repr

/-- `n` concurrent callers of `deduplicate` with the same fingerprint,
none yet started, registry empty at that fingerprint. -/
def initDedup (n : Nat) : DedupSys :=
  { entry := none, execCount := 0, nextId := 0
    tasks := List.replicate n DedupTask.start }

/-- The atomic synchronous prefix of `deduplicate`
(token-manager.ts:350-371) executed by caller `i`: return the
registered promise when an entry exists; otherwise invoke the
operation once and register a new entry. -/
def runDedupTask (s : DedupSys) (i : Nat) : DedupSys :=
  match s.tasks[i]? with
  | some DedupTask.start =>
    match s.entry with
    | some t => { s with tasks := s.tasks.set i (DedupTask.awaiting t) }
    | none =>
      { s with entry := some s.nextId
               execCount := s.execCount + 1
               nextId := s.nextId + 1
               tasks := s.tasks.set i (DedupTask.awaiting s.nextId) }
  | _ => s

/-- Settlement of the registered promise with outcome `o`: the
`.finally` handler (token-manager.ts:359-362) removes the entry —
on success and on failure alike — and every caller sharing the
promise observes `o`.  No-op when no entry is live. -/
def settleDedup (s : DedupSys) (o : Outcome) : DedupSys :=
  match s.entry with
  | none => s
  | some t =>
    { s with
      entry := none
      tasks := s.tasks.map (fun task =>
        match task with
        | DedupTask.awaiting u =>
            if u = t then DedupTask.done o else DedupTask.awaiting u
        | other => other) }

/-- An interleaving of caller entries into `deduplicate`. -/
def runDedupSeq (s : DedupSys) (l : List Nat) : DedupSys :=
  l.foldl runDedupTask s

/-- Invariant of the refresh cohort before any settlement: the
credential pair is present, the `isRefreshing` flag tracks the
promise slot, at most ticket 0 has ever been created (one network
call), and every caller is still starting or awaiting ticket 0. -/
def RefreshInv (s : RefreshSys) : Prop :=
  s.hasRefreshToken = true ∧
  s.hasAccessToken = true ∧
  s.isRefreshing = s.refreshPromise.isSome ∧
  (s.refreshPromise = none →
    s.nextTicket = 0 ∧ s.netCalls = 0 ∧
    ∀ task ∈ s.tasks, task = RefreshTask.start) ∧
  (∀ t, s.refreshPromise = some t →
    t = 0 ∧ s.nextTicket = 1 ∧ s.netCalls = 1) ∧
  (∀ task ∈ s.tasks,
    task = RefreshTask.start ∨ task = RefreshTask.awaiting 0)

/-- Invariant of the deduplication cohort before any settlement: at
most entry 0 has ever been registered (one execution of the
operation), and every caller is still starting or awaiting entry 0. -/
def DedupInv (s : DedupSys) : Prop :=
  (s.entry = none →
    s.nextId = 0 ∧ s.execCount = 0 ∧
    ∀ task ∈ s.tasks, task = DedupTask.start) ∧
  (∀ t, s.entry = some t → t = 0 ∧ s.nextId = 1 ∧ s.execCount = 1) ∧
  (∀ task ∈ s.tasks,
    task = DedupTask.start ∨ task = DedupTask.awaiting 0)

/-! ## Reversible token transform (`TokenCrypto`, token-manager.ts:9-31)

`encrypt(text) = btoa(encodeURIComponent(text + "|" + Date.now()))` and
`decrypt(x) = decodeURIComponent(atob(x)).split("|")[0]` (with any
thrown error caught, yielding the input unchanged in `encrypt` and
`null` in `decrypt`).  Strings are modelled at the UTF-8 byte level as
`List Nat`: `encodeURIComponent` leaves the unreserved ASCII characters
unescaped and percent-escapes every other byte of the UTF-8 encoding,
so it is exactly a per-byte transform; `"|"` is the single byte 124,
which in UTF-8 occurs only as the character `|`.  On this domain
`encodeURIComponent` returns ASCII, hence `btoa` never throws and
`encrypt`'s catch branch is dead. -/

/-- The base64 alphabet: sextet value to character code. -/
def b64Char (n : Nat) : Nat :=
  if n < 26 then 65 + n
  else if n < 52 then 97 + (n - 26)
  else if n < 62 then 48 + (n - 52)
  else if n = 62 then 43
  else 47

/-- The base64 alphabet inverted: character code to sextet value,
`none` for a character outside the alphabet. -/
def b64Val (c : Nat) : Option Nat :=
  if 65 ≤ c ∧ c ≤ 90 then some (c - 65)
  else if 97 ≤ c ∧ c ≤ 122 then some (c - 97 + 26)
  else if 48 ≤ c ∧ c ≤ 57 then some (c - 48 + 52)
  else if c = 43 then some 62
  else if c = 47 then some 63
  else none

/-- `window.btoa`: base64-encode a byte list (three bytes to four
characters, `=`-padded tail). -/
def btoa : List Nat → List Nat
  | [] => []
  | [b1] => [b64Char (b1 / 4), b64Char (b1 % 4 * 16), 61, 61]
  | [b1, b2] =>
      [b64Char (b1 / 4), b64Char (b1 % 4 * 16 + b2 / 16), b64Char (b2 % 16 * 4), 61]
  | b1 :: b2 :: b3 :: rest =>
      b64Char (b1 / 4) :: b64Char (b1 % 4 * 16 + b2 / 16) ::
      b64Char (b2 % 16 * 4 + b3 / 64) :: b64Char (b3 % 64) :: btoa rest

/-- `window.atob`: base64-decode, `none` on malformed input (the
`InvalidCharacterError` throw). -/
def atob : List Nat → Option (List Nat)
  | [] => some []
  | c1 :: c2 :: c3 :: c4 :: rest =>
    match b64Val c1, b64Val c2 with
    | some v1, some v2 =>
      if c3 = 61 ∧ c4 = 61 ∧ rest = [] then
        some [v1 * 4 + v2 / 16]
      else if c4 = 61 ∧ rest = [] then
        match b64Val c3 with
        | some v3 => some [v1 * 4 + v2 / 16, v2 % 16 * 16 + v3 / 4]
        | none => none
      else
        match b64Val c3, b64Val c4, atob rest with
        | some v3, some v4, some bs =>
            some ((v1 * 4 + v2 / 16) :: (v2 % 16 * 16 + v3 / 4) ::
                  (v3 % 4 * 64 + v4) :: bs)
        | _, _, _ => none
    | _, _ => none
  | _ => none

/-- The characters `encodeURIComponent` leaves unescaped:
`A-Z a-z 0-9 - _ . ! ~ * ' ( )`. -/
def unreservedByte (b : Nat) : Bool :=
  decide ((65 ≤ b ∧ b ≤ 90) ∨ (97 ≤ b ∧ b ≤ 122) ∨ (48 ≤ b ∧ b ≤ 57) ∨
    b = 45 ∨ b = 95 ∨ b = 46 ∨ b = 33 ∨ b = 126 ∨ b = 42 ∨ b = 39 ∨
    b = 40 ∨ b = 41)

/-- Upper-case hexadecimal digit character for a value below 16. -/
def hexDigitChar (n : Nat) : Nat :=
  if n < 10 then 48 + n else 55 + n

/-- Hexadecimal digit value of a character code, `none` for a
non-digit. -/
def hexVal (c : Nat) : Option Nat :=
  if 48 ≤ c ∧ c ≤ 57 then some (c - 48)
  else if 65 ≤ c ∧ c ≤ 70 then some (c - 65 + 10)
  else if 97 ≤ c ∧ c ≤ 102 then some (c - 97 + 10)
  else none

/-- `encodeURIComponent` at the UTF-8 byte level: an unreserved byte
passes through, every other byte becomes `%XX`. -/
def encodeURIComponent : List Nat → List Nat
  | [] => []
  | b :: rest =>
    (if unreservedByte b then [b]
     else [37, hexDigitChar (b / 16), hexDigitChar (b % 16)]) ++
    encodeURIComponent rest

/-- `decodeURIComponent` at the byte level: `%XX` becomes the byte
`XX`, any other byte passes through; `none` on a malformed percent
escape (the `URIError` throw). -/
def decodeURIComponent : List Nat → Option (List Nat)
  | [] => some []
  | b :: rest =>
    if b = 37 then
      match rest with
      | h :: lo :: rest2 =>
        match hexVal h, hexVal lo, decodeURIComponent rest2 with
        | some hv, some lv, some ds => some ((hv * 16 + lv) :: ds)
        | _, _, _ => none
      | _ => none
    else
      match decodeURIComponent rest with
      | some ds => some (b :: ds)
      | none => none

/-- The decimal digit characters of a positive number, least
significant first. -/
def decimalDigitsRev : Nat → List Nat
  | 0 => []
  | n + 1 => (48 + (n + 1) % 10) :: decimalDigitsRev ((n + 1) / 10)
decreasing_by exact Nat.div_lt_self (Nat.succ_pos n) (by omega)

/-- `String(n)` for a natural number: its decimal digit characters. -/
def decimalDigits (n : Nat) : List Nat :=
  if n = 0 then [48] else (decimalDigitsRev n).reverse

/-- `TokenCrypto.encrypt` (token-manager.ts:12-20):
`btoa(encodeURIComponent(text + "|" + Date.now()))`, over UTF-8 bytes;
`now` is the `Date.now()` value.  The catch branch never fires here
because `encodeURIComponent` output is ASCII. -/
def tokenCryptoEncrypt (text : List Nat) (now : Nat) : List Nat :=
  btoa (encodeURIComponent (text ++ 124 :: decimalDigits now))

/-- `TokenCrypto.decrypt` (token-manager.ts:22-30):
`decodeURIComponent(atob(x))`, then `split("|")[0]` — the prefix
before the first `|` byte; a thrown error is caught and `null`
returned, modelled by `none`. -/
def tokenCryptoDecrypt (encryptedText : List Nat) : Option (List Nat) :=
  match atob encryptedText with
  | none => none
  | some decoded =>
    match decodeURIComponent decoded with
    | none => none
    | some plain => some (plain.takeWhile (fun b => b != 124))

/-! # Theorems -/

/-- Every status below 400 that is not one of the named cases falls to
`UNKNOWN_ERROR`; the two decision-table functions agree everywhere. -/
theorem getErrorTypeByStatus_eq_spec (s : Nat) :
    getErrorTypeByStatus s = specStatusTable s := by
  unfold getErrorTypeByStatus specStatusTable
  split_ifs <;> first | rfl | omega

/-- Every `ErrorType` value is a member of the eight-kind taxonomy. -/
theorem errorType_mem_taxonomy (t : ErrorType) :
    t ∈ [ErrorType.NETWORK_ERROR, ErrorType.AUTHENTICATION_ERROR,
      ErrorType.AUTHORIZATION_ERROR, ErrorType.VALIDATION_ERROR,
      ErrorType.NOT_FOUND_ERROR, ErrorType.CONFLICT_ERROR,
      ErrorType.SERVER_ERROR, ErrorType.UNKNOWN_ERROR] := by
  cases t <;> simp

/-- C4 counterexample: on an object whose `response` property is
`null`, `classify` does not return `UnknownError` (or any Structured
Failure at all) — it throws the `TypeError` raised by reading
`response.status` at error-handler.ts:52. -/
theorem classify_null_response_counterexample :
    classify RawError.httpShapedNullResponse =
      Except.error nullResponseTypeError ∧
    (classify RawError.httpShapedNullResponse).toOption = none := by
  exact ⟨rfl, rfl⟩

/-- C4 amended: for every HTTP-shaped failure whose `response` carries
status code `s`, `classify` returns the kind of the decision table —
401 authentication, 403 authorization, 404 not-found, 409 conflict,
422 validation, 500 server, any other 4xx validation, any other
status ≥ 500 server — a `TypeError` mentioning `fetch` (a
transport-level failure before a response) yields the network kind,
and any other value yields the unknown kind, except an object whose
`response` property is `null`/`undefined`, on which `classify` throws
a `TypeError` instead of classifying (a response without a numeric
status classifies as unknown with no recorded status). -/
theorem classify_decision_table (s : Nat) (m : String) :
    getErrorTypeByStatus s = specStatusTable s ∧
    classify (RawError.httpShaped s m) =
      Except.ok { type := getErrorTypeByStatus s, status := some s, message := m } ∧
    (∀ msg, messageMentionsFetch msg = true →
      classify (RawError.errorInstance "TypeError" msg) =
        Except.ok { type := ErrorType.NETWORK_ERROR, status := none
                    message := NETWORK_ERROR_MESSAGE }) ∧
    classify RawError.otherValue =
      Except.ok { type := ErrorType.UNKNOWN_ERROR, status := none
                  message := NETWORK_ERROR_MESSAGE } ∧
    classify (RawError.httpShapedNoStatus m) =
      Except.ok { type := ErrorType.UNKNOWN_ERROR, status := none, message := m } ∧
    classify RawError.httpShapedNullResponse =
      Except.error nullResponseTypeError := by
  refine ⟨getErrorTypeByStatus_eq_spec s, rfl, ?_, rfl, rfl, rfl⟩
  intro msg h
  simp [classify, h]

/-- Witness for `classify_decision_table` at status 418 and a fetch
`TypeError`. -/
theorem classify_decision_table_witness :
    classify (RawError.httpShaped 418 "teapot") =
      Except.ok { type := ErrorType.VALIDATION_ERROR, status := some 418
                  message := "teapot" } ∧
    classify (RawError.errorInstance "TypeError" "Failed to fetch") =
      Except.ok { type := ErrorType.NETWORK_ERROR, status := none
                  message := NETWORK_ERROR_MESSAGE } := by
  have h := classify_decision_table 418 "teapot"
  refine ⟨?_, h.2.2.1 "Failed to fetch" (by decide)⟩
  rw [h.2.1, show getErrorTypeByStatus 418 = ErrorType.VALIDATION_ERROR from by decide]

/-- C3 counterexample: `classify` is not total and does not preserve
every original message — on an object whose `response` property is
`null` it throws a `TypeError` (error-handler.ts:52) instead of
returning a Structured Failure, and an `Error` instance whose message
is the empty string gets the generic network-error text instead of
its original (empty) message. -/
theorem classify_not_total_counterexample :
    (classify RawError.httpShapedNullResponse).toOption = none ∧
    classify (RawError.errorInstance "RangeError" "") =
      Except.ok { type := ErrorType.UNKNOWN_ERROR, status := none
                  message := NETWORK_ERROR_MESSAGE } ∧
    NETWORK_ERROR_MESSAGE ≠ "" := by
  exact ⟨rfl, rfl, by decide⟩

/-- C3 amended: `classify` returns exactly one Structured Failure with
a kind from the eight-member taxonomy and never raises, for every
input except an object whose `response` property is `null`/`undefined`
— there it throws a `TypeError`; an unrecognized shape degrades to
`UNKNOWN_ERROR`, preserving the original message when it is a nonempty
string (an `Error` with an empty message, or a non-string non-`Error`
value, receives the generic network-error message instead). -/
theorem classify_taxonomy (e : RawError) :
    (∀ se, classify e = Except.ok se →
      se.type ∈ [ErrorType.NETWORK_ERROR,
        ErrorType.AUTHENTICATION_ERROR, ErrorType.AUTHORIZATION_ERROR,
        ErrorType.VALIDATION_ERROR, ErrorType.NOT_FOUND_ERROR,
        ErrorType.CONFLICT_ERROR, ErrorType.SERVER_ERROR,
        ErrorType.UNKNOWN_ERROR]) ∧
    (e ≠ RawError.httpShapedNullResponse →
      ∃ se, classify e = Except.ok se) ∧
    (∀ name msg, ¬(name = "TypeError" ∧ messageMentionsFetch msg = true) →
      msg ≠ "" →
      classify (RawError.errorInstance name msg) =
        Except.ok { type := ErrorType.UNKNOWN_ERROR, status := none
                    message := msg }) ∧
    (∀ s, classify (RawError.stringValue s) =
      Except.ok { type := ErrorType.UNKNOWN_ERROR, status := none
                  message := s }) ∧
    classify RawError.otherValue =
      Except.ok { type := ErrorType.UNKNOWN_ERROR, status := none
                  message := NETWORK_ERROR_MESSAGE } ∧
    classify RawError.httpShapedNullResponse =
      Except.error nullResponseTypeError := by
  refine ⟨fun se _ => errorType_mem_taxonomy se.type, ?_, ?_, fun s => rfl,
    rfl, rfl⟩
  · intro hne
    cases e with
    | httpShaped s' m' => exact ⟨_, rfl⟩
    | httpShapedNullResponse => exact absurd rfl hne
    | httpShapedNoStatus m' => exact ⟨_, rfl⟩
    | errorInstance name msg => exact ⟨_, rfl⟩
    | stringValue s' => exact ⟨_, rfl⟩
    | otherValue => exact ⟨_, rfl⟩
  · intro name msg hshape hmsg
    simp only [classify, if_neg hshape, if_neg hmsg]

/-- Witness for `classify_taxonomy` on a plain `Error` with a nonempty
message and on a string input. -/
theorem classify_taxonomy_witness :
    classify (RawError.errorInstance "RangeError" "boom") =
      Except.ok { type := ErrorType.UNKNOWN_ERROR, status := none
                  message := "boom" } ∧
    (∃ se, classify (RawError.stringValue "oops") = Except.ok se) := by
  have h := classify_taxonomy (RawError.stringValue "oops")
  exact ⟨(classify_taxonomy RawError.otherValue).2.2.1 "RangeError" "boom"
    (by decide) (by decide), h.2.1 (by decide)⟩

/-- C8: `setTokens` records expiry = now + the fixed 55-minute
lifetime window; `isTokenExpired` is true exactly when no expiry is
recorded or now ≥ expiry; `isTokenExpiringSoon` is true exactly when
now + window ≥ expiry, with the window fixed at 5 minutes. -/
theorem token_expiry_bookkeeping (st : TokenState) (access : String)
    (refresh : Option String) (now t : Nat) :
    (setTokens st access refresh now).tokenExpiry =
      some (now + TOKEN_LIFETIME_MS) ∧
    TOKEN_LIFETIME_MS = 55 * 60 * 1000 ∧
    (isTokenExpired st t = true ↔
      st.tokenExpiry = none ∨ ∃ e, st.tokenExpiry = some e ∧ e ≤ t) ∧
    (isTokenExpiringSoon st t = true ↔
      st.tokenExpiry = none ∨
        ∃ e, st.tokenExpiry = some e ∧ e ≤ t + EXPIRING_SOON_WINDOW_MS) ∧
    EXPIRING_SOON_WINDOW_MS = 5 * 60 * 1000 := by
  refine ⟨rfl, rfl, ?_, ?_, rfl⟩ <;>
    cases h : st.tokenExpiry <;>
      simp [isTokenExpired, isTokenExpiringSoon, h]

/-- In a registry with pairwise-distinct keys (a `Map` guarantees
this), a key appears among the expired keys of the sweep exactly when
its entry is expired. -/
theorem mem_expiredKeys_iff (now : Nat) (reqs : List PendingEntry)
    (hkeys : (reqs.map PendingEntry.key).Nodup)
    (e : PendingEntry) (he : e ∈ reqs) :
    (e.key ∈ (reqs.filter (isExpiredEntry now)).map PendingEntry.key) ↔
      isExpiredEntry now e = true := by
  constructor
  · intro hmem
    rcases List.mem_map.mp hmem with ⟨y, hy, hky⟩
    rcases List.mem_filter.mp hy with ⟨hyreqs, hyexp⟩
    have : y = e := List.inj_on_of_nodup_map hkeys hyreqs he hky
    rw [← this]
    exact hyexp
  · intro hexp
    exact List.mem_map.mpr ⟨e, List.mem_filter.mpr ⟨he, hexp⟩, rfl⟩

/-- C9: one run of `cleanupExpiredRequests` invokes the cancellation
handle of exactly the entries older than the 30-second pending
timeout and deletes exactly those keys, leaving every younger entry
unchanged in place; the constants are 30 s and a 60 s sweep
interval. -/
theorem cleanup_sweep (now : Nat) (reqs : List PendingEntry)
    (hkeys : (reqs.map PendingEntry.key).Nodup) :
    (cleanupExpiredRequests now reqs).1 =
      reqs.filter (fun e => !(isExpiredEntry now e)) ∧
    (∀ e ∈ reqs, (isExpiredEntry now e = true ↔
      e.key ∈ (cleanupExpiredRequests now reqs).2)) ∧
    (∀ e ∈ reqs, isExpiredEntry now e = true →
      e.key ∉ (cleanupExpiredRequests now reqs).1.map PendingEntry.key) ∧
    (∀ e, isExpiredEntry now e = true ↔ PENDING_TIMEOUT < now - e.timestamp) ∧
    PENDING_TIMEOUT = 30000 ∧ CLEANUP_INTERVAL = 60000 := by
  refine ⟨?_, ?_, ?_, fun e => by simp [isExpiredEntry], rfl, rfl⟩
  · unfold cleanupExpiredRequests
    apply List.filter_congr
    intro e he
    have h := mem_expiredKeys_iff now reqs hkeys e he
    by_cases hexp : isExpiredEntry now e = true
    · simp [hexp, h.mpr hexp]
    · have : e.key ∉ (reqs.filter (isExpiredEntry now)).map PendingEntry.key :=
        fun hm => hexp (h.mp hm)
      simp [this, Bool.eq_false_iff.mpr hexp]
  · intro e he
    exact (mem_expiredKeys_iff now reqs hkeys e he).symm
  · intro e he hexp hmem
    rcases List.mem_map.mp hmem with ⟨y, hy, hky⟩
    unfold cleanupExpiredRequests at hy
    rcases List.mem_filter.mp hy with ⟨hyreqs, hysurv⟩
    have : y = e := List.inj_on_of_nodup_map hkeys hyreqs he hky
    subst this
    have : y.key ∈ (reqs.filter (isExpiredEntry now)).map PendingEntry.key :=
      (mem_expiredKeys_iff now reqs hkeys y hyreqs).mpr hexp
    simp [this] at hysurv

/-- Witness for `cleanup_sweep`: a two-entry registry at `now = 100000`
with one entry 50 s old and one 20 s old. -/
theorem cleanup_sweep_witness :
    (cleanupExpiredRequests 100000
        [{ key := "a", timestamp := 50000 }, { key := "b", timestamp := 80000 }]).1 =
      [{ key := "b", timestamp := 80000 }] ∧
    (cleanupExpiredRequests 100000
        [{ key := "a", timestamp := 50000 }, { key := "b", timestamp := 80000 }]).2 =
      ["a"] := by
  have h := cleanup_sweep 100000
    [{ key := "a", timestamp := 50000 }, { key := "b", timestamp := 80000 }]
    (by decide)
  refine ⟨?_, ?_⟩
  · rw [h.1]; decide
  · have ha := (h.2.1 { key := "a", timestamp := 50000 } (by decide)).mp (by decide)
    decide

/-- The retry loop makes at most `fuel` attempts. -/
theorem retryGo_attempts_le {T : Type} (o : Nat → Except String T)
    (c : String → Bool) (d m : Nat) :
    ∀ (fuel a : Nat) (le : Option String),
      (retryGo o c d m fuel a le).2.1 ≤ fuel := by
  intro fuel
  induction fuel with
  | zero => intro a le; simp [retryGo]
  | succ f ih =>
    intro a le
    cases ho : o a with
    | ok v => simp [retryGo, ho]
    | error e =>
      simp only [retryGo, ho]
      by_cases h : a = m ∨ c e = false
      · rw [if_pos h]; simp
      · rw [if_neg h]
        show (retryGo o c d m f (a + 1) (some e)).2.1 + 1 ≤ f + 1
        have := ih (a + 1) (some e)
        omega

/-- Prepending the delay of attempt `a` to the geometric tail starting
at attempt `a + 1` gives the geometric list starting at attempt `a`. -/
theorem range_map_pow_cons (d a k : Nat) :
    (d * 2 ^ a) :: (List.range k).map (fun j => d * 2 ^ (a + 1 + j)) =
      (List.range (k + 1)).map (fun j => d * 2 ^ (a + j)) := by
  rw [List.range_succ_eq_map, List.map_cons, List.map_map]
  have hf : ((fun j => d * 2 ^ (a + j)) ∘ Nat.succ) =
      (fun j => d * 2 ^ (a + 1 + j)) := by
    funext j
    have h1 : a + Nat.succ j = a + 1 + j := by omega
    simp [Function.comp, h1]
  rw [hf]
  simp

/-- The delays awaited by the retry loop from attempt `a` form a
geometric sequence: the `j`-th delay is `retryDelay * 2 ^ (a + j)`. -/
theorem retryGo_delays_shape {T : Type} (o : Nat → Except String T)
    (c : String → Bool) (d m : Nat) :
    ∀ (fuel a : Nat) (le : Option String),
      ∃ k, (retryGo o c d m fuel a le).2.2 =
        (List.range k).map (fun j => d * 2 ^ (a + j)) := by
  intro fuel
  induction fuel with
  | zero => intro a le; exact ⟨0, by simp [retryGo]⟩
  | succ f ih =>
    intro a le
    cases ho : o a with
    | ok v => exact ⟨0, by simp [retryGo, ho]⟩
    | error e =>
      by_cases h : a = m ∨ c e = false
      · refine ⟨0, ?_⟩
        simp only [retryGo, ho]
        rw [if_pos h]
        simp
      · obtain ⟨k, hk⟩ := ih (a + 1) (some e)
        refine ⟨k + 1, ?_⟩
        simp only [retryGo, ho]
        rw [if_neg h]
        show (d * 2 ^ a) :: (retryGo o c d m f (a + 1) (some e)).2.2 = _
        rw [hk]
        exact range_map_pow_cons d a k

/-- A sequence of `N` retryable failures followed by a success, with
`N` within the retry budget, yields the success after `N + 1`
attempts, with the doubling delays of attempts `a, …, a + N - 1`. -/
theorem retryGo_success {T : Type} (o : Nat → Except String T)
    (c : String → Bool) (d m : Nat) (v : T) :
    ∀ (N a fuel : Nat) (le : Option String),
      (∀ i, i < N → ∃ e, o (a + i) = Except.error e ∧ c e = true) →
      o (a + N) = Except.ok v → a + N ≤ m → N < fuel →
      retryGo o c d m fuel a le =
        (Except.ok v, N + 1, (List.range N).map (fun j => d * 2 ^ (a + j))) := by
  intro N
  induction N with
  | zero =>
    intro a fuel le _ hok _ hfuel
    cases fuel with
    | zero => omega
    | succ f =>
      rw [Nat.add_zero] at hok
      simp [retryGo, hok]
  | succ n ih =>
    intro a fuel le hfail hok hm hfuel
    cases fuel with
    | zero => omega
    | succ f =>
      obtain ⟨e, he, hce⟩ := hfail 0 (Nat.succ_pos n)
      rw [Nat.add_zero] at he
      have hne : ¬(a = m ∨ c e = false) := by
        intro hcon
        rcases hcon with h1 | h2
        · omega
        · rw [hce] at h2; exact Bool.noConfusion h2
      simp only [retryGo, he]
      rw [if_neg hne]
      show ((retryGo o c d m f (a + 1) (some e)).1,
        (retryGo o c d m f (a + 1) (some e)).2.1 + 1,
        d * 2 ^ a :: (retryGo o c d m f (a + 1) (some e)).2.2) = _
      rw [ih (a + 1) f (some e)
        (fun i hi => by
          have h := hfail (i + 1) (by omega)
          rwa [show a + (i + 1) = a + 1 + i from by omega] at h)
        (by rwa [show a + 1 + n = a + (n + 1) from by omega])
        (by omega) (by omega)]
      rw [range_map_pow_cons]

/-- When every attempt up to the retry limit fails with a retryable
error, the loop makes all `m - a + 1` remaining attempts and re-raises
the failure of the final attempt. -/
theorem retryGo_exhaust {T : Type} (o : Nat → Except String T)
    (c : String → Bool) (d m : Nat) (errs : Nat → String) :
    ∀ (fuel a : Nat) (le : Option String),
      a ≤ m → m - a < fuel →
      (∀ i, a ≤ i → i ≤ m → o i = Except.error (errs i) ∧ c (errs i) = true) →
      retryGo o c d m fuel a le =
        (Except.error (errs m), m - a + 1,
          (List.range (m - a)).map (fun j => d * 2 ^ (a + j))) := by
  intro fuel
  induction fuel with
  | zero => intro a le h1 h2 _; omega
  | succ f ih =>
    intro a le ham hfuel hall
    obtain ⟨he, hce⟩ := hall a (le_refl a) ham
    by_cases ham' : a = m
    · subst ham'
      simp [retryGo, he]
    · have hne : ¬(a = m ∨ c (errs a) = false) := by
        intro hcon
        rcases hcon with h1 | h2
        · exact ham' h1
        · rw [hce] at h2; exact Bool.noConfusion h2
      simp only [retryGo, he]
      rw [if_neg hne]
      have hsub : m - a = (m - (a + 1)) + 1 := by omega
      show ((retryGo o c d m f (a + 1) (some (errs a))).1,
        (retryGo o c d m f (a + 1) (some (errs a))).2.1 + 1,
        d * 2 ^ a :: (retryGo o c d m f (a + 1) (some (errs a))).2.2) = _
      rw [ih (a + 1) (some (errs a)) (by omega) (by omega)
        (fun i h1 h2 => hall i (by omega) h2), hsub,
        ← range_map_pow_cons d a (m - (a + 1))]

/-- C7 amended: `retryableRequest` makes at most `maxRetries + 1`
attempts (the source's default `maxRetries` is 3, i.e. up to four
attempts, not the claimed two-attempt limit); the inter-attempt delays
form the non-decreasing doubling sequence `retryDelay * 2 ^ j`; a run
of `N ≤ maxRetries` retryable failures followed by a success returns
the success after exactly `N + 1` attempts; and when every attempt
fails retryably, the failure of the last attempt is re-raised. -/
theorem retry_bounded_backoff {T : Type} (outcomes : Nat → Except String T)
    (cond : String → Bool) (d m N : Nat) (v : T) (errs : Nat → String) :
    (retryableRequest outcomes cond d m).2.1 ≤ m + 1 ∧
    (∃ k, (retryableRequest outcomes cond d m).2.2 =
      (List.range k).map (fun j => d * 2 ^ j)) ∧
    List.Pairwise (· ≤ ·) (retryableRequest outcomes cond d m).2.2 ∧
    ((∀ i, i < N → ∃ e, outcomes i = Except.error e ∧ cond e = true) →
      outcomes N = Except.ok v → N ≤ m →
      retryableRequest outcomes cond d m =
        (Except.ok v, N + 1, (List.range N).map (fun j => d * 2 ^ j))) ∧
    ((∀ i, i ≤ m → outcomes i = Except.error (errs i) ∧ cond (errs i) = true) →
      retryableRequest outcomes cond d m =
        (Except.error (errs m), m + 1,
          (List.range m).map (fun j => d * 2 ^ j))) ∧
    maxRetriesDefault = 3 := by
  obtain ⟨k, hk⟩ := retryGo_delays_shape outcomes cond d m (m + 1) 0 none
  have hk' : (retryableRequest outcomes cond d m).2.2 =
      (List.range k).map (fun j => d * 2 ^ j) := by
    rw [retryableRequest, hk]
    simp
  refine ⟨retryGo_attempts_le outcomes cond d m (m + 1) 0 none,
    ⟨k, hk'⟩, ?_, ?_, ?_, rfl⟩
  · rw [hk']
    refine List.Pairwise.map _ ?_ (List.pairwise_lt_range k)
    intro a b hab
    exact Nat.mul_le_mul_left d (Nat.pow_le_pow_right (by omega) (by omega))
  · intro hfail hok hN
    have h := retryGo_success outcomes cond d m v N 0 (m + 1) none
      (fun i hi => by simpa using hfail i hi) (by simpa using hok)
      (by omega) (by omega)
    rw [retryableRequest, h]
    simp
  · intro hall
    have h := retryGo_exhaust outcomes cond d m errs (m + 1) 0 none
      (by omega) (by omega) (fun i _ h2 => hall i h2)
    rw [retryableRequest, h]
    simp

/-- Witness for `retry_bounded_backoff`: one retryable failure, then a
success, under a budget of 3 retries — two attempts, one 10 ms delay. -/
theorem retry_bounded_backoff_witness :
    retryableRequest
        (fun i => if i = 0 then Except.error "transient" else Except.ok 7)
        (fun _ => true) 10 3 = (Except.ok 7, 2, [10]) := by
  have h := (retry_bounded_backoff
    (fun i => if i = 0 then Except.error "transient" else Except.ok 7)
    (fun _ => true) 10 3 1 7 (fun _ => "transient")).2.2.2.1
  have hres := h
    (fun i hi => by
      have : i = 0 := by omega
      subst this
      exact ⟨"transient", rfl, rfl⟩)
    rfl (by omega)
  simpa using hres

/-- C7 counterexample: with the source's default configuration
(`maxRetries = 3`, token-manager.ts:584) an always-failing retryable
request makes 4 attempts, exceeding the claimed default bound of
2 + 1 attempts. -/
theorem retry_default_counterexample :
    (retryableRequest (fun _ => (Except.error "boom" : Except String Nat))
      (fun _ => true) retryDelayDefault maxRetriesDefault).2.1 = 4 ∧
    ¬((retryableRequest (fun _ => (Except.error "boom" : Except String Nat))
      (fun _ => true) retryDelayDefault maxRetriesDefault).2.1 ≤ 2 + 1) := by
  decide

/-- The initial refresh cohort satisfies the invariant. -/
theorem refresh_inv_init (n : Nat) : RefreshInv (initRefresh n) := by
  refine ⟨rfl, rfl, rfl, fun _ => ⟨rfl, rfl, ?_⟩, fun t ht => Option.noConfusion ht, ?_⟩
  · intro task htask
    exact List.eq_of_mem_replicate htask
  · intro task htask
    exact Or.inl (List.eq_of_mem_replicate htask)

/-- One caller entry into `refreshAccessToken` preserves the
invariant. -/
theorem refresh_inv_run (s : RefreshSys) (i : Nat) (h : RefreshInv s) :
    RefreshInv (runRefreshTask s i) := by
  obtain ⟨hrt, hat, hir, hnone, hsome, htasks⟩ := h
  cases hget : s.tasks[i]? with
  | none =>
    rw [show runRefreshTask s i = s from by simp [runRefreshTask, hget]]
    exact ⟨hrt, hat, hir, hnone, hsome, htasks⟩
  | some task =>
    cases task with
    | awaiting t =>
      rw [show runRefreshTask s i = s from by simp [runRefreshTask, hget]]
      exact ⟨hrt, hat, hir, hnone, hsome, htasks⟩
    | done o =>
      rw [show runRefreshTask s i = s from by simp [runRefreshTask, hget]]
      exact ⟨hrt, hat, hir, hnone, hsome, htasks⟩
    | doneNoRefresh =>
      rw [show runRefreshTask s i = s from by simp [runRefreshTask, hget]]
      exact ⟨hrt, hat, hir, hnone, hsome, htasks⟩
    | start =>
      cases hrp : s.refreshPromise with
      | some t =>
        have hirt : s.isRefreshing = true := by rw [hir, hrp]; rfl
        have ht0 := hsome t hrp
        have hrun : runRefreshTask s i =
            { s with tasks := s.tasks.set i (RefreshTask.awaiting t) } := by
          simp [runRefreshTask, hget, hrp, hirt]
        rw [hrun]
        refine ⟨hrt, hat, hir, ?_, ?_, ?_⟩
        · intro hcon
          have hcon' : s.refreshPromise = none := hcon
          rw [hrp] at hcon'
          exact Option.noConfusion hcon'
        · intro u hu
          have hu' : s.refreshPromise = some u := hu
          rw [hrp] at hu'
          rcases Option.some.inj hu' with rfl
          exact ht0
        · intro task htask
          have htask' : task ∈ s.tasks.set i (RefreshTask.awaiting t) := htask
          rcases List.mem_or_eq_of_mem_set htask' with hmem | rfl
          · exact htasks task hmem
          · exact Or.inr (by rw [ht0.1])
      | none =>
        have hirf : s.isRefreshing = false := by rw [hir, hrp]; rfl
        obtain ⟨hnt, hnc, hall⟩ := hnone hrp
        have hrun : runRefreshTask s i =
            { s with isRefreshing := true
                     refreshPromise := some s.nextTicket
                     netCalls := s.netCalls + 1
                     nextTicket := s.nextTicket + 1
                     tasks := s.tasks.set i (RefreshTask.awaiting s.nextTicket) } := by
          simp [runRefreshTask, hget, hrp, hirf, hrt]
        rw [hrun]
        refine ⟨hrt, hat, rfl, ?_, ?_, ?_⟩
        · intro hcon
          exact Option.noConfusion hcon
        · intro u hu
          rcases Option.some.inj hu with rfl
          refine ⟨hnt, ?_, ?_⟩
          · show s.nextTicket + 1 = 1
            omega
          · show s.netCalls + 1 = 1
            omega
        · intro task htask
          have htask' : task ∈ s.tasks.set i (RefreshTask.awaiting s.nextTicket) :=
            htask
          rcases List.mem_or_eq_of_mem_set htask' with hmem | rfl
          · exact Or.inl (hall task hmem)
          · exact Or.inr (by rw [hnt])

/-- Any interleaving of caller entries preserves the invariant. -/
theorem refresh_inv_seq (l : List Nat) :
    ∀ s, RefreshInv s → RefreshInv (runRefreshSeq s l) := by
  induction l with
  | nil => intro s h; exact h
  | cons i t ih => intro s h; exact ih _ (refresh_inv_run s i h)

/-- A caller entry does not change the cohort size. -/
theorem runRefreshTask_tasks_length (s : RefreshSys) (i : Nat) :
    (runRefreshTask s i).tasks.length = s.tasks.length := by
  cases hget : s.tasks[i]? with
  | none => simp [runRefreshTask, hget]
  | some task =>
    cases task with
    | start =>
      cases hir : s.isRefreshing with
      | true =>
        cases hrp : s.refreshPromise with
        | some t => simp [runRefreshTask, hget, hir, hrp]
        | none =>
          by_cases hrf : s.hasRefreshToken = true <;>
            simp [runRefreshTask, hget, hir, hrp, hrf]
      | false =>
        by_cases hrf : s.hasRefreshToken = true <;>
          simp [runRefreshTask, hget, hir, hrf]
    | awaiting t => simp [runRefreshTask, hget]
    | done o => simp [runRefreshTask, hget]
    | doneNoRefresh => simp [runRefreshTask, hget]

/-- Interleavings do not change the cohort size. -/
theorem runRefreshSeq_tasks_length (l : List Nat) :
    ∀ s : RefreshSys, (runRefreshSeq s l).tasks.length = s.tasks.length := by
  induction l with
  | nil => intro s; rfl
  | cons i t ih =>
    intro s
    calc (runRefreshSeq (runRefreshTask s i) t).tasks.length
        = (runRefreshTask s i).tasks.length := ih _
      _ = s.tasks.length := runRefreshTask_tasks_length s i

/-- Once a promise is in flight, caller entries keep one in flight. -/
theorem runRefreshTask_promise_isSome (s : RefreshSys) (i : Nat)
    (h : s.refreshPromise.isSome = true) :
    (runRefreshTask s i).refreshPromise.isSome = true := by
  cases hget : s.tasks[i]? with
  | none => simpa [runRefreshTask, hget] using h
  | some task =>
    cases task with
    | start =>
      cases hir : s.isRefreshing with
      | true =>
        cases hrp : s.refreshPromise with
        | some t => simp [runRefreshTask, hget, hir, hrp]
        | none => rw [hrp] at h; exact Bool.noConfusion h
      | false =>
        by_cases hrf : s.hasRefreshToken = true
        · simp [runRefreshTask, hget, hir, hrf]
        · rw [show runRefreshTask s i =
              { s with tasks := s.tasks.set i RefreshTask.doneNoRefresh } from by
            simp [runRefreshTask, hget, hir, hrf]]
          exact h
    | awaiting t => simpa [runRefreshTask, hget] using h
    | done o => simpa [runRefreshTask, hget] using h
    | doneNoRefresh => simpa [runRefreshTask, hget] using h

/-- Once a promise is in flight, interleavings keep one in flight. -/
theorem runRefreshSeq_promise_isSome (l : List Nat) :
    ∀ s : RefreshSys, s.refreshPromise.isSome = true →
      (runRefreshSeq s l).refreshPromise.isSome = true := by
  induction l with
  | nil => intro s h; exact h
  | cons i t ih => intro s h; exact ih _ (runRefreshTask_promise_isSome s i h)

/-- In an invariant state, a caller entry at a valid index leaves a
promise in flight: the caller either joined the existing promise or
created the first one. -/
theorem runRefreshTask_start_promise (s : RefreshSys) (i : Nat)
    (hinv : RefreshInv s) (hi : i < s.tasks.length) :
    (runRefreshTask s i).refreshPromise.isSome = true := by
  obtain ⟨hrt, hat, hir, hnone, hsome, htasks⟩ := hinv
  cases hrp : s.refreshPromise with
  | some t => exact runRefreshTask_promise_isSome s i (by rw [hrp]; rfl)
  | none =>
    obtain ⟨hnt, hnc, hall⟩ := hnone hrp
    have hirf : s.isRefreshing = false := by rw [hir, hrp]; rfl
    have hget : s.tasks[i]? = some RefreshTask.start := by
      cases hg : s.tasks[i]? with
      | none =>
        rw [List.getElem?_eq_none_iff] at hg
        omega
      | some task =>
        have hmem : task ∈ s.tasks := List.getElem?_mem hg
        rw [hall task hmem]
    simp [runRefreshTask, hget, hirf, hrt]

/-- C1: for every set of concurrent `refreshAccessToken` callers
entering in any order before the promise settles, at most one renewal
promise exists at every instant, exactly one network renewal call is
made, every caller that has entered awaits that one promise, and on
settlement every such caller observes the same outcome. -/
theorem refresh_single_flight (n : Nat) (l : List Nat) (o : Outcome)
    (h : ∃ i ∈ l, i < n) :
    (runRefreshSeq (initRefresh n) l).netCalls = 1 ∧
    (runRefreshSeq (initRefresh n) l).refreshPromise = some 0 ∧
    (∀ l' : List Nat, (runRefreshSeq (initRefresh n) l').netCalls ≤ 1 ∧
      ((runRefreshSeq (initRefresh n) l').refreshPromise = none ∨
        (runRefreshSeq (initRefresh n) l').refreshPromise = some 0)) ∧
    (∀ task ∈ (runRefreshSeq (initRefresh n) l).tasks,
      task = RefreshTask.start ∨ task = RefreshTask.awaiting 0) ∧
    (∀ task ∈ (settleRefresh (runRefreshSeq (initRefresh n) l) o).tasks,
      task = RefreshTask.start ∨ task = RefreshTask.done o) := by
  obtain ⟨i, hil, hin⟩ := h
  have hinv : RefreshInv (runRefreshSeq (initRefresh n) l) :=
    refresh_inv_seq l _ (refresh_inv_init n)
  obtain ⟨hrt, hat, hir, hnone, hsome, htasks⟩ := hinv
  obtain ⟨l1, l2, hl⟩ := List.append_of_mem hil
  have hsplit : runRefreshSeq (initRefresh n) l =
      runRefreshSeq (runRefreshTask (runRefreshSeq (initRefresh n) l1) i) l2 := by
    rw [hl]
    simp [runRefreshSeq, List.foldl_append]
  have hsomep : (runRefreshSeq (initRefresh n) l).refreshPromise.isSome = true := by
    rw [hsplit]
    apply runRefreshSeq_promise_isSome
    apply runRefreshTask_start_promise _ i (refresh_inv_seq l1 _ (refresh_inv_init n))
    rw [runRefreshSeq_tasks_length]
    simpa [initRefresh] using hin
  cases hrp : (runRefreshSeq (initRefresh n) l).refreshPromise with
  | none => rw [hrp] at hsomep; exact Bool.noConfusion hsomep
  | some t =>
    obtain ⟨ht0, hnt, hnc⟩ := hsome t hrp
    subst ht0
    refine ⟨hnc, rfl, ?_, htasks, ?_⟩
    · intro l'
      have hinv' : RefreshInv (runRefreshSeq (initRefresh n) l') :=
        refresh_inv_seq l' _ (refresh_inv_init n)
      obtain ⟨_, _, _, hnone', hsome', _⟩ := hinv'
      cases hrp' : (runRefreshSeq (initRefresh n) l').refreshPromise with
      | none =>
        obtain ⟨_, hnc', _⟩ := hnone' hrp'
        exact ⟨by omega, Or.inl rfl⟩
      | some u =>
        obtain ⟨hu0, _, hnc'⟩ := hsome' u hrp'
        subst hu0
        exact ⟨by omega, Or.inr rfl⟩
    · intro task htask
      have hts : (settleRefresh (runRefreshSeq (initRefresh n) l) o).tasks =
          (runRefreshSeq (initRefresh n) l).tasks.map (fun task =>
            match task with
            | RefreshTask.awaiting u =>
                if u = 0 then RefreshTask.done o else RefreshTask.awaiting u
            | other => other) := by
        simp [settleRefresh, hrp]
      rw [hts] at htask
      rcases List.mem_map.mp htask with ⟨x, hx, hfx⟩
      rcases htasks x hx with rfl | rfl
      · exact Or.inl hfx.symm
      · right
        rw [← hfx]
        rfl

/-- Witness for `refresh_single_flight`: two callers entering in
order, then a successful settlement. -/
theorem refresh_single_flight_witness :
    (runRefreshSeq (initRefresh 2) [0, 1]).netCalls = 1 ∧
    (runRefreshSeq (initRefresh 2) [0, 1]).refreshPromise = some 0 := by
  have h := refresh_single_flight 2 [0, 1] Outcome.success
    ⟨0, by simp, by omega⟩
  exact ⟨h.1, h.2.1⟩

/-- After any interleaving containing at least one valid caller entry,
ticket 0 is the in-flight promise. -/
theorem refresh_reaches_ticket (n : Nat) (l : List Nat)
    (h : ∃ i ∈ l, i < n) :
    (runRefreshSeq (initRefresh n) l).refreshPromise = some 0 := by
  obtain ⟨i, hil, hin⟩ := h
  have hinv : RefreshInv (runRefreshSeq (initRefresh n) l) :=
    refresh_inv_seq l _ (refresh_inv_init n)
  obtain ⟨hrt, hat, hir, hnone, hsome, htasks⟩ := hinv
  obtain ⟨l1, l2, hl⟩ := List.append_of_mem hil
  have hsplit : runRefreshSeq (initRefresh n) l =
      runRefreshSeq (runRefreshTask (runRefreshSeq (initRefresh n) l1) i) l2 := by
    rw [hl]
    simp [runRefreshSeq, List.foldl_append]
  have hsomep : (runRefreshSeq (initRefresh n) l).refreshPromise.isSome = true := by
    rw [hsplit]
    apply runRefreshSeq_promise_isSome
    apply runRefreshTask_start_promise _ i (refresh_inv_seq l1 _ (refresh_inv_init n))
    rw [runRefreshSeq_tasks_length]
    simpa [initRefresh] using hin
  cases hrp : (runRefreshSeq (initRefresh n) l).refreshPromise with
  | none => rw [hrp] at hsomep; exact Bool.noConfusion hsomep
  | some t =>
    obtain ⟨ht0, _, _⟩ := hsome t hrp
    rw [ht0]

/-- C6: when the renewal settles with failure, the credential pair is
cleared and every caller that had entered observes the failure; the
single-flight slot (`isRefreshing`/`refreshPromise`) is emptied on
success as well as on failure; and a `refreshAccessToken` call made
after settlement never observes the settled promise — after a success
it creates a fresh promise (ticket 1, a second network call), after a
failure it rejects with the missing-refresh-credential error because
the credentials were cleared. -/
theorem refresh_failure_cleanup (n : Nat) (l : List Nat)
    (h : ∃ i ∈ l, i < n) :
    (settleRefresh (runRefreshSeq (initRefresh n) l)
        Outcome.failure).hasAccessToken = false ∧
    (settleRefresh (runRefreshSeq (initRefresh n) l)
        Outcome.failure).hasRefreshToken = false ∧
    (∀ task ∈ (settleRefresh (runRefreshSeq (initRefresh n) l)
        Outcome.failure).tasks,
      task = RefreshTask.start ∨ task = RefreshTask.done Outcome.failure) ∧
    (settleRefresh (runRefreshSeq (initRefresh n) l)
        Outcome.failure).isRefreshing = false ∧
    (settleRefresh (runRefreshSeq (initRefresh n) l)
        Outcome.failure).refreshPromise = none ∧
    (settleRefresh (runRefreshSeq (initRefresh n) l)
        Outcome.success).isRefreshing = false ∧
    (settleRefresh (runRefreshSeq (initRefresh n) l)
        Outcome.success).refreshPromise = none ∧
    (∀ j : Nat,
      (settleRefresh (runRefreshSeq (initRefresh n) l)
          Outcome.success).tasks[j]? = some RefreshTask.start →
      (runRefreshTask (settleRefresh (runRefreshSeq (initRefresh n) l)
          Outcome.success) j).refreshPromise = some 1 ∧
      (runRefreshTask (settleRefresh (runRefreshSeq (initRefresh n) l)
          Outcome.success) j).netCalls = 2) ∧
    (∀ j : Nat,
      (settleRefresh (runRefreshSeq (initRefresh n) l)
          Outcome.failure).tasks[j]? = some RefreshTask.start →
      (runRefreshTask (settleRefresh (runRefreshSeq (initRefresh n) l)
          Outcome.failure) j).tasks[j]? = some RefreshTask.doneNoRefresh) := by
  have hrp : (runRefreshSeq (initRefresh n) l).refreshPromise = some 0 :=
    refresh_reaches_ticket n l h
  have hinv : RefreshInv (runRefreshSeq (initRefresh n) l) :=
    refresh_inv_seq l _ (refresh_inv_init n)
  obtain ⟨hrt, hat, hir, hnone, hsome, htasks⟩ := hinv
  obtain ⟨_, hnt, hnc⟩ := hsome 0 hrp
  have hsf : settleRefresh (runRefreshSeq (initRefresh n) l) Outcome.failure =
      { isRefreshing := false
        refreshPromise := none
        hasAccessToken := false
        hasRefreshToken := false
        netCalls := (runRefreshSeq (initRefresh n) l).netCalls
        nextTicket := (runRefreshSeq (initRefresh n) l).nextTicket
        tasks := (runRefreshSeq (initRefresh n) l).tasks.map (fun task =>
          match task with
          | RefreshTask.awaiting u =>
              if u = 0 then RefreshTask.done Outcome.failure
              else RefreshTask.awaiting u
          | other => other) } := by
    simp [settleRefresh, hrp]
  have hss : settleRefresh (runRefreshSeq (initRefresh n) l) Outcome.success =
      { isRefreshing := false
        refreshPromise := none
        hasAccessToken := true
        hasRefreshToken := true
        netCalls := (runRefreshSeq (initRefresh n) l).netCalls
        nextTicket := (runRefreshSeq (initRefresh n) l).nextTicket
        tasks := (runRefreshSeq (initRefresh n) l).tasks.map (fun task =>
          match task with
          | RefreshTask.awaiting u =>
              if u = 0 then RefreshTask.done Outcome.success
              else RefreshTask.awaiting u
          | other => other) } := by
    simp [settleRefresh, hrp]
  refine ⟨by rw [hsf], by rw [hsf], ?_, by rw [hsf], by rw [hsf],
    by rw [hss], by rw [hss], ?_, ?_⟩
  · intro task htask
    rw [hsf] at htask
    rcases List.mem_map.mp htask with ⟨x, hx, hfx⟩
    rcases htasks x hx with rfl | rfl
    · exact Or.inl hfx.symm
    · right
      rw [← hfx]
      rfl
  · intro j hj
    rw [hss] at hj ⊢
    constructor
    · simp [runRefreshTask, hj, hnt]
    · simp [runRefreshTask, hj, hnc]
  · intro j hj
    rw [hsf] at hj ⊢
    have hlen : j < (runRefreshSeq (initRefresh n) l).tasks.length := by
      by_contra hc
      rw [List.getElem?_eq_none_iff.mpr (by simp; omega)] at hj
      exact Option.noConfusion hj
    simp [runRefreshTask, hj, List.getElem?_set, hlen]

/-- Witness for `refresh_failure_cleanup`: two callers, one entering. -/
theorem refresh_failure_cleanup_witness :
    (settleRefresh (runRefreshSeq (initRefresh 2) [0])
        Outcome.failure).hasRefreshToken = false ∧
    (settleRefresh (runRefreshSeq (initRefresh 2) [0])
        Outcome.failure).refreshPromise = none ∧
    (settleRefresh (runRefreshSeq (initRefresh 2) [0])
        Outcome.success).refreshPromise = none := by
  have h := refresh_failure_cleanup 2 [0] ⟨0, by simp, by omega⟩
  exact ⟨h.2.1, h.2.2.2.2.1, h.2.2.2.2.2.2.1⟩

/-- C5 counterexample: the rejection produced by a failed renewal is a
fresh error with a fixed message whose `cause` is empty — it does not
wrap the underlying cause (token-manager.ts:233-236 logs the caught
error and throws `new Error("Token refresh failed")`). -/
theorem renewal_rejection_no_cause :
    performTokenRefresh (Except.error
      { message := "getaddrinfo ENOTFOUND", cause := none }) =
      Except.error renewalFailedError ∧
    renewalFailedError.cause ≠ some "getaddrinfo ENOTFOUND" := by
  exact ⟨rfl, by decide⟩

/-- C5 amended: `refreshAccessToken` rejects with the
missing-refresh-credential error when no refresh credential is
present; every other failure surfaces the single rejection type
`renewalFailedError` (message `"Token refresh failed"`), which does
not carry the underlying cause; and all callers awaiting the shared
promise receive that same rejection. -/
theorem renewal_failure_semantics (net : Except JsError AuthResponse)
    (r : AuthResponse) (e : JsError) (n : Nat) (l : List Nat) :
    refreshAttemptResult false net = Except.error noRefreshTokenError ∧
    refreshAttemptResult true (Except.error e) =
      Except.error renewalFailedError ∧
    refreshAttemptResult true (Except.ok r) = Except.ok r.accessToken ∧
    renewalFailedError.message = "Token refresh failed" ∧
    renewalFailedError.cause = none ∧
    (∀ task ∈ (settleRefresh (runRefreshSeq (initRefresh n) l)
        Outcome.failure).tasks,
      task = RefreshTask.start ∨ task = RefreshTask.done Outcome.failure) := by
  refine ⟨rfl, rfl, rfl, rfl, rfl, ?_⟩
  intro task htask
  have hinv : RefreshInv (runRefreshSeq (initRefresh n) l) :=
    refresh_inv_seq l _ (refresh_inv_init n)
  obtain ⟨hrt, hat, hir, hnone, hsome, htasks⟩ := hinv
  cases hrp : (runRefreshSeq (initRefresh n) l).refreshPromise with
  | none =>
    have hts : (settleRefresh (runRefreshSeq (initRefresh n) l)
        Outcome.failure).tasks = (runRefreshSeq (initRefresh n) l).tasks := by
      simp [settleRefresh, hrp]
    rw [hts] at htask
    exact Or.inl ((hnone hrp).2.2 task htask)
  | some t =>
    obtain ⟨ht0, _, _⟩ := hsome t hrp
    subst ht0
    have hts : (settleRefresh (runRefreshSeq (initRefresh n) l)
        Outcome.failure).tasks =
        (runRefreshSeq (initRefresh n) l).tasks.map (fun task =>
          match task with
          | RefreshTask.awaiting u =>
              if u = 0 then RefreshTask.done Outcome.failure
              else RefreshTask.awaiting u
          | other => other) := by
      simp [settleRefresh, hrp]
    rw [hts] at htask
    rcases List.mem_map.mp htask with ⟨x, hx, hfx⟩
    rcases htasks x hx with rfl | rfl
    · exact Or.inl hfx.symm
    · right
      rw [← hfx]
      rfl

/-- Witness for `renewal_failure_semantics` at a concrete network
failure and cohort. -/
theorem renewal_failure_semantics_witness :
    refreshAttemptResult true
      (Except.error { message := "timeout of 10000ms exceeded", cause := none }) =
      Except.error renewalFailedError ∧
    refreshAttemptResult false
      (Except.ok { accessToken := "a", refreshToken := "r" }) =
      Except.error noRefreshTokenError := by
  have h := renewal_failure_semantics
    (Except.error { message := "timeout of 10000ms exceeded", cause := none })
    { accessToken := "a", refreshToken := "r" }
    { message := "timeout of 10000ms exceeded", cause := none } 2 [0]
  exact ⟨h.2.1, h.1⟩

/-- The initial deduplication cohort satisfies the invariant. -/
theorem dedup_inv_init (n : Nat) : DedupInv (initDedup n) := by
  refine ⟨fun _ => ⟨rfl, rfl, ?_⟩, fun t ht => Option.noConfusion ht, ?_⟩
  · intro task htask
    exact List.eq_of_mem_replicate htask
  · intro task htask
    exact Or.inl (List.eq_of_mem_replicate htask)

/-- One caller entry into `deduplicate` preserves the invariant. -/
theorem dedup_inv_run (s : DedupSys) (i : Nat) (h : DedupInv s) :
    DedupInv (runDedupTask s i) := by
  obtain ⟨hnone, hsome, htasks⟩ := h
  cases hget : s.tasks[i]? with
  | none =>
    rw [show runDedupTask s i = s from by simp [runDedupTask, hget]]
    exact ⟨hnone, hsome, htasks⟩
  | some task =>
    cases task with
    | awaiting t =>
      rw [show runDedupTask s i = s from by simp [runDedupTask, hget]]
      exact ⟨hnone, hsome, htasks⟩
    | done o =>
      rw [show runDedupTask s i = s from by simp [runDedupTask, hget]]
      exact ⟨hnone, hsome, htasks⟩
    | start =>
      cases hrp : s.entry with
      | some t =>
        have ht0 := hsome t hrp
        have hrun : runDedupTask s i =
            { s with tasks := s.tasks.set i (DedupTask.awaiting t) } := by
          simp [runDedupTask, hget, hrp]
        rw [hrun]
        refine ⟨?_, ?_, ?_⟩
        · intro hcon
          have hcon' : s.entry = none := hcon
          rw [hrp] at hcon'
          exact Option.noConfusion hcon'
        · intro u hu
          have hu' : s.entry = some u := hu
          rw [hrp] at hu'
          rcases Option.some.inj hu' with rfl
          exact ht0
        · intro task htask
          have htask' : task ∈ s.tasks.set i (DedupTask.awaiting t) := htask
          rcases List.mem_or_eq_of_mem_set htask' with hmem | rfl
          · exact htasks task hmem
          · exact Or.inr (by rw [ht0.1])
      | none =>
        obtain ⟨hnt, hnc, hall⟩ := hnone hrp
        have hrun : runDedupTask s i =
            { s with entry := some s.nextId
                     execCount := s.execCount + 1
                     nextId := s.nextId + 1
                     tasks := s.tasks.set i (DedupTask.awaiting s.nextId) } := by
          simp [runDedupTask, hget, hrp]
        rw [hrun]
        refine ⟨?_, ?_, ?_⟩
        · intro hcon
          exact Option.noConfusion hcon
        · intro u hu
          rcases Option.some.inj hu with rfl
          refine ⟨hnt, ?_, ?_⟩
          · show s.nextId + 1 = 1
            omega
          · show s.execCount + 1 = 1
            omega
        · intro task htask
          have htask' : task ∈ s.tasks.set i (DedupTask.awaiting s.nextId) :=
            htask
          rcases List.mem_or_eq_of_mem_set htask' with hmem | rfl
          · exact Or.inl (hall task hmem)
          · exact Or.inr (by rw [hnt])

/-- Any interleaving of caller entries preserves the invariant. -/
theorem dedup_inv_seq (l : List Nat) :
    ∀ s, DedupInv s → DedupInv (runDedupSeq s l) := by
  induction l with
  | nil => intro s h; exact h
  | cons i t ih => intro s h; exact ih _ (dedup_inv_run s i h)

/-- A caller entry does not change the cohort size. -/
theorem runDedupTask_tasks_length (s : DedupSys) (i : Nat) :
    (runDedupTask s i).tasks.length = s.tasks.length := by
  cases hget : s.tasks[i]? with
  | none => simp [runDedupTask, hget]
  | some task =>
    cases task with
    | start =>
      cases hrp : s.entry with
      | some t => simp [runDedupTask, hget, hrp]
      | none => simp [runDedupTask, hget, hrp]
    | awaiting t => simp [runDedupTask, hget]
    | done o => simp [runDedupTask, hget]

/-- Interleavings do not change the cohort size. -/
theorem runDedupSeq_tasks_length (l : List Nat) :
    ∀ s : DedupSys, (runDedupSeq s l).tasks.length = s.tasks.length := by
  induction l with
  | nil => intro s; rfl
  | cons i t ih =>
    intro s
    calc (runDedupSeq (runDedupTask s i) t).tasks.length
        = (runDedupTask s i).tasks.length := ih _
      _ = s.tasks.length := runDedupTask_tasks_length s i

/-- Once an entry is registered, caller entries keep one registered. -/
theorem runDedupTask_entry_isSome (s : DedupSys) (i : Nat)
    (h : s.entry.isSome = true) :
    (runDedupTask s i).entry.isSome = true := by
  cases hget : s.tasks[i]? with
  | none => simpa [runDedupTask, hget] using h
  | some task =>
    cases task with
    | start =>
      cases hrp : s.entry with
      | some t => simp [runDedupTask, hget, hrp]
      | none => rw [hrp] at h; exact Bool.noConfusion h
    | awaiting t => simpa [runDedupTask, hget] using h
    | done o => simpa [runDedupTask, hget] using h

/-- Once an entry is registered, interleavings keep one registered. -/
theorem runDedupSeq_entry_isSome (l : List Nat) :
    ∀ s : DedupSys, s.entry.isSome = true →
      (runDedupSeq s l).entry.isSome = true := by
  induction l with
  | nil => intro s h; exact h
  | cons i t ih => intro s h; exact ih _ (runDedupTask_entry_isSome s i h)

/-- In an invariant state, a caller entry at a valid index leaves an
entry registered: the caller either joined the existing entry or
registered the first one. -/
theorem runDedupTask_start_entry (s : DedupSys) (i : Nat)
    (hinv : DedupInv s) (hi : i < s.tasks.length) :
    (runDedupTask s i).entry.isSome = true := by
  obtain ⟨hnone, hsome, htasks⟩ := hinv
  cases hrp : s.entry with
  | some t => exact runDedupTask_entry_isSome s i (by rw [hrp]; rfl)
  | none =>
    obtain ⟨hnt, hnc, hall⟩ := hnone hrp
    have hget : s.tasks[i]? = some DedupTask.start := by
      cases hg : s.tasks[i]? with
      | none =>
        rw [List.getElem?_eq_none_iff] at hg
        omega
      | some task =>
        have hmem : task ∈ s.tasks := List.getElem?_mem hg
        rw [hall task hmem]
    simp [runDedupTask, hget, hrp]

/-- C2: for every set of concurrent `deduplicate` callers with the
same fingerprint entering in any order before the promise settles, the
underlying operation is invoked exactly once, at most one In-Flight
Entry for the fingerprint exists at every instant, later callers join
the registered entry, on settlement every caller that entered observes
the same outcome, and the entry is removed — on success and on failure
alike. -/
theorem dedup_single_execution (n : Nat) (l : List Nat) (o : Outcome)
    (h : ∃ i ∈ l, i < n) :
    (runDedupSeq (initDedup n) l).execCount = 1 ∧
    (runDedupSeq (initDedup n) l).entry = some 0 ∧
    (∀ l' : List Nat, (runDedupSeq (initDedup n) l').execCount ≤ 1 ∧
      ((runDedupSeq (initDedup n) l').entry = none ∨
        (runDedupSeq (initDedup n) l').entry = some 0)) ∧
    (∀ task ∈ (runDedupSeq (initDedup n) l).tasks,
      task = DedupTask.start ∨ task = DedupTask.awaiting 0) ∧
    (settleDedup (runDedupSeq (initDedup n) l) o).entry = none ∧
    (settleDedup (runDedupSeq (initDedup n) l) Outcome.failure).entry = none ∧
    (∀ task ∈ (settleDedup (runDedupSeq (initDedup n) l) o).tasks,
      task = DedupTask.start ∨ task = DedupTask.done o) := by
  obtain ⟨i, hil, hin⟩ := h
  have hinv : DedupInv (runDedupSeq (initDedup n) l) :=
    dedup_inv_seq l _ (dedup_inv_init n)
  obtain ⟨hnone, hsome, htasks⟩ := hinv
  obtain ⟨l1, l2, hl⟩ := List.append_of_mem hil
  have hsplit : runDedupSeq (initDedup n) l =
      runDedupSeq (runDedupTask (runDedupSeq (initDedup n) l1) i) l2 := by
    rw [hl]
    simp [runDedupSeq, List.foldl_append]
  have hsomep : (runDedupSeq (initDedup n) l).entry.isSome = true := by
    rw [hsplit]
    apply runDedupSeq_entry_isSome
    apply runDedupTask_start_entry _ i (dedup_inv_seq l1 _ (dedup_inv_init n))
    rw [runDedupSeq_tasks_length]
    simpa [initDedup] using hin
  cases hrp : (runDedupSeq (initDedup n) l).entry with
  | none => rw [hrp] at hsomep; exact Bool.noConfusion hsomep
  | some t =>
    obtain ⟨ht0, hnt, hnc⟩ := hsome t hrp
    subst ht0
    have hsettle : ∀ o' : Outcome,
        settleDedup (runDedupSeq (initDedup n) l) o' =
        { entry := none
          execCount := (runDedupSeq (initDedup n) l).execCount
          nextId := (runDedupSeq (initDedup n) l).nextId
          tasks := (runDedupSeq (initDedup n) l).tasks.map (fun task =>
            match task with
            | DedupTask.awaiting u =>
                if u = 0 then DedupTask.done o' else DedupTask.awaiting u
            | other => other) } := by
      intro o'
      simp [settleDedup, hrp]
    refine ⟨hnc, rfl, ?_, htasks, by rw [hsettle o], by rw [hsettle Outcome.failure], ?_⟩
    · intro l'
      have hinv' : DedupInv (runDedupSeq (initDedup n) l') :=
        dedup_inv_seq l' _ (dedup_inv_init n)
      obtain ⟨hnone', hsome', _⟩ := hinv'
      cases hrp' : (runDedupSeq (initDedup n) l').entry with
      | none =>
        obtain ⟨_, hnc', _⟩ := hnone' hrp'
        exact ⟨by omega, Or.inl rfl⟩
      | some u =>
        obtain ⟨hu0, _, hnc'⟩ := hsome' u hrp'
        subst hu0
        exact ⟨by omega, Or.inr rfl⟩
    · intro task htask
      rw [hsettle o] at htask
      have htask' : task ∈ (runDedupSeq (initDedup n) l).tasks.map (fun task =>
          match task with
          | DedupTask.awaiting u =>
              if u = 0 then DedupTask.done o else DedupTask.awaiting u
          | other => other) := htask
      rcases List.mem_map.mp htask' with ⟨x, hx, hfx⟩
      rcases htasks x hx with rfl | rfl
      · exact Or.inl hfx.symm
      · right
        rw [← hfx]
        rfl

/-- Witness for `dedup_single_execution`: three callers entering as
`[1, 0, 2]`, settling successfully. -/
theorem dedup_single_execution_witness :
    (runDedupSeq (initDedup 3) [1, 0, 2]).execCount = 1 ∧
    (settleDedup (runDedupSeq (initDedup 3) [1, 0, 2]) Outcome.success).entry =
      none := by
  have h := dedup_single_execution 3 [1, 0, 2] Outcome.success
    ⟨1, by simp, by omega⟩
  exact ⟨h.1, h.2.2.2.2.1⟩

/-- The base64 alphabet decodes its own encodings. -/
theorem b64Val_b64Char : ∀ v < 64, b64Val (b64Char v) = some v := by decide

/-- No sextet encodes to the padding character `=`. -/
theorem b64Char_ne_61 : ∀ v < 64, b64Char v ≠ 61 := by decide

/-- `atob` inverts `btoa` on byte lists. -/
theorem atob_btoa : ∀ bs : List Nat, (∀ b ∈ bs, b < 256) →
    atob (btoa bs) = some bs
  | [] => fun _ => rfl
  | [b1] => fun h => by
    have hb1 : b1 < 256 := h b1 (by simp)
    have h1 : b64Val (b64Char (b1 / 4)) = some (b1 / 4) :=
      b64Val_b64Char _ (by omega)
    have h2 : b64Val (b64Char (b1 % 4 * 16)) = some (b1 % 4 * 16) :=
      b64Val_b64Char _ (by omega)
    simp [btoa, atob, h1, h2]
    omega
  | [b1, b2] => fun h => by
    have hb1 : b1 < 256 := h b1 (by simp)
    have hb2 : b2 < 256 := h b2 (by simp)
    have h1 : b64Val (b64Char (b1 / 4)) = some (b1 / 4) :=
      b64Val_b64Char _ (by omega)
    have h2 : b64Val (b64Char (b1 % 4 * 16 + b2 / 16)) =
        some (b1 % 4 * 16 + b2 / 16) :=
      b64Val_b64Char _ (by omega)
    have h3 : b64Val (b64Char (b2 % 16 * 4)) = some (b2 % 16 * 4) :=
      b64Val_b64Char _ (by omega)
    have hne : b64Char (b2 % 16 * 4) ≠ 61 := b64Char_ne_61 _ (by omega)
    simp [btoa, atob, h1, h2, h3, hne]
    omega
  | b1 :: b2 :: b3 :: rest => fun h => by
    have hb1 : b1 < 256 := h b1 (by simp)
    have hb2 : b2 < 256 := h b2 (by simp)
    have hb3 : b3 < 256 := h b3 (by simp)
    have ih := atob_btoa rest (fun b hb => h b (by simp [hb]))
    have h1 : b64Val (b64Char (b1 / 4)) = some (b1 / 4) :=
      b64Val_b64Char _ (by omega)
    have h2 : b64Val (b64Char (b1 % 4 * 16 + b2 / 16)) =
        some (b1 % 4 * 16 + b2 / 16) :=
      b64Val_b64Char _ (by omega)
    have h3 : b64Val (b64Char (b2 % 16 * 4 + b3 / 64)) =
        some (b2 % 16 * 4 + b3 / 64) :=
      b64Val_b64Char _ (by omega)
    have h4 : b64Val (b64Char (b3 % 64)) = some (b3 % 64) :=
      b64Val_b64Char _ (by omega)
    have hne3 : b64Char (b2 % 16 * 4 + b3 / 64) ≠ 61 :=
      b64Char_ne_61 _ (by omega)
    have hne4 : b64Char (b3 % 64) ≠ 61 := b64Char_ne_61 _ (by omega)
    simp [btoa, atob, h1, h2, h3, h4, hne3, hne4, ih]
    omega

/-- The hexadecimal digits decode their own encodings. -/
theorem hexVal_hexDigitChar : ∀ v < 16, hexVal (hexDigitChar v) = some v := by
  decide

/-- `%` is not an unreserved character. -/
theorem unreservedByte_37 : unreservedByte 37 = false := by decide

/-- `decodeURIComponent` inverts `encodeURIComponent` on byte lists. -/
theorem decodeURIComponent_encodeURIComponent :
    ∀ bs : List Nat, (∀ b ∈ bs, b < 256) →
      decodeURIComponent (encodeURIComponent bs) = some bs
  | [] => fun _ => rfl
  | b :: rest => fun h => by
    have hb : b < 256 := h b (by simp)
    have ih := decodeURIComponent_encodeURIComponent rest
      (fun x hx => h x (by simp [hx]))
    by_cases hu : unreservedByte b = true
    · have hb37 : b ≠ 37 := by
        intro hcon
        rw [hcon, unreservedByte_37] at hu
        exact Bool.noConfusion hu
      have henc : encodeURIComponent (b :: rest) = b :: encodeURIComponent rest := by
        simp [encodeURIComponent, hu]
      rw [henc, decodeURIComponent.eq_def]
      dsimp only
      rw [if_neg hb37, ih]
    · have h1 : hexVal (hexDigitChar (b / 16)) = some (b / 16) :=
        hexVal_hexDigitChar _ (by omega)
      have h2 : hexVal (hexDigitChar (b % 16)) = some (b % 16) :=
        hexVal_hexDigitChar _ (by omega)
      simp [encodeURIComponent, decodeURIComponent, hu, h1, h2, ih]
      omega

/-- `encodeURIComponent` output is ASCII (so `btoa` accepts it). -/
theorem encodeURIComponent_lt : ∀ bs : List Nat, (∀ b ∈ bs, b < 256) →
    ∀ c ∈ encodeURIComponent bs, c < 256
  | [] => fun _ c hc => by simp [encodeURIComponent] at hc
  | b :: rest => fun h c hc => by
    have hb : b < 256 := h b (by simp)
    have ih := encodeURIComponent_lt rest (fun x hx => h x (by simp [hx]))
    by_cases hu : unreservedByte b = true
    · simp [encodeURIComponent, hu] at hc
      rcases hc with rfl | hc
      · exact hb
      · exact ih c hc
    · simp [encodeURIComponent, hu] at hc
      rcases hc with rfl | rfl | rfl | hc
      · omega
      · simp only [hexDigitChar]
        split <;> omega
      · simp only [hexDigitChar]
        split <;> omega
      · exact ih c hc

/-- `split("|")[0]` of `s ++ "|" ++ tail` is `split("|")[0]` of `s`. -/
theorem takeWhile_append_sep : ∀ (s d : List Nat),
    ((s ++ 124 :: d).takeWhile (fun b => b != 124)) =
      s.takeWhile (fun b => b != 124)
  | [], d => by simp
  | a :: s, d => by
    by_cases ha : a = 124
    · subst ha
      simp
    · simp only [List.cons_append, List.takeWhile_cons]
      have hba : (a != 124) = true := by simpa using ha
      rw [hba]
      simp only [if_true]
      rw [takeWhile_append_sep s d]

/-- A separator-free byte list is untouched by `split("|")[0]`. -/
theorem takeWhile_eq_self_of_not_mem : ∀ s : List Nat, 124 ∉ s →
    s.takeWhile (fun b => b != 124) = s
  | [] => fun _ => rfl
  | a :: s => fun h => by
    have ha : a ≠ 124 := fun hcon => h (by rw [hcon]; simp)
    have hs : 124 ∉ s := fun hcon => h (by simp [hcon])
    simp only [List.takeWhile_cons]
    have hba : (a != 124) = true := by simpa using ha
    rw [hba]
    simp only [if_true]
    rw [takeWhile_eq_self_of_not_mem s hs]

/-- Decimal digit characters are the bytes 48-57. -/
theorem decimalDigitsRev_lt (n : Nat) : ∀ d ∈ decimalDigitsRev n, d < 256 := by
  induction n using Nat.strong_induction_on with
  | _ n ih =>
    match n with
    | 0 => intro d hd; simp [decimalDigitsRev] at hd
    | m + 1 =>
      intro d hd
      rw [decimalDigitsRev] at hd
      rcases List.mem_cons.mp hd with rfl | hd
      · omega
      · exact ih ((m + 1) / 10) (Nat.div_lt_self (Nat.succ_pos m) (by omega)) d hd

/-- The rendered `Date.now()` suffix is ASCII. -/
theorem decimalDigits_lt (n : Nat) : ∀ d ∈ decimalDigits n, d < 256 := by
  intro d hd
  by_cases hn : n = 0
  · subst hn
    simp [decimalDigits] at hd
    omega
  · rw [decimalDigits, if_neg hn] at hd
    exact decimalDigitsRev_lt n d (List.mem_reverse.mp hd)

/-- C10: the reversible credential transform round-trips exactly on
separator-free input — for every byte string `s` not containing the
`|` byte, `decrypt(encrypt(s)) = s`, while for a string containing `|`
the decryption returns only the prefix of `s` before its first `|`, so
the round trip is lossy on such strings. -/
theorem tokenCrypto_roundtrip (s : List Nat) (now : Nat)
    (hbytes : ∀ b ∈ s, b < 256) :
    tokenCryptoDecrypt (tokenCryptoEncrypt s now) =
      some (s.takeWhile (fun b => b != 124)) ∧
    (124 ∉ s → tokenCryptoDecrypt (tokenCryptoEncrypt s now) = some s) := by
  have hpayload : ∀ b ∈ s ++ 124 :: decimalDigits now, b < 256 := by
    intro b hb
    rcases List.mem_append.mp hb with h1 | h2
    · exact hbytes b h1
    · rcases List.mem_cons.mp h2 with rfl | h3
      · omega
      · exact decimalDigits_lt now b h3
  have hatob := atob_btoa (encodeURIComponent (s ++ 124 :: decimalDigits now))
    (encodeURIComponent_lt _ hpayload)
  have hdec := decodeURIComponent_encodeURIComponent _ hpayload
  have hmain : tokenCryptoDecrypt (tokenCryptoEncrypt s now) =
      some ((s ++ 124 :: decimalDigits now).takeWhile (fun b => b != 124)) := by
    simp only [tokenCryptoEncrypt, tokenCryptoDecrypt, hatob, hdec]
  rw [hmain, takeWhile_append_sep]
  exact ⟨rfl, fun hnot => by rw [takeWhile_eq_self_of_not_mem s hnot]⟩

/-- Witness for `tokenCrypto_roundtrip`: `"a|b"` loses its suffix,
`"hi"` round-trips intact. -/
theorem tokenCrypto_roundtrip_witness :
    tokenCryptoDecrypt (tokenCryptoEncrypt [97, 124, 98] 5) = some [97] ∧
    tokenCryptoDecrypt (tokenCryptoEncrypt [104, 105] 5) = some [104, 105] := by
  have h1 := (tokenCrypto_roundtrip [97, 124, 98] 5 (by decide)).1
  have h2 := (tokenCrypto_roundtrip [104, 105] 5 (by decide)).2 (by decide)
  exact ⟨h1.trans (by decide), h2⟩

end Connecto
